import Mathlib

/-!
# The topic broker of `server.cpp`

A shallow embedding of `TCPServer` (src/src/server.cpp) together with the
argument counter of the command-line client (src/src/client.cpp).

* A `std::string` is the list of its characters, `size_t` arithmetic is
  arithmetic modulo `2 ^ 64`.
* The member `topic_subscribers` (an `unordered_map<string, vector<int>>`) is
  an association list that is passed through every operation explicitly.
* What an operation does besides changing the map is recorded as a list of
  events: taking and releasing `topicMutex`, reading and writing the map, and
  the calls of `send`.
* An operation that can leave defined behaviour (an exception that nobody
  catches, an iterator handed to the wrong container, a write past a buffer)
  returns in `Except Fault`.
-/

set_option autoImplicit false

deriving instance DecidableEq for Except

namespace TCPServer

/-! ## Strings and `size_t` -/

/-- A value of type std::string, as the list of its characters. -/
abbrev Str := List Char

/-- The number of values of a 64-bit size_t. -/
def SIZE_MODULUS : Nat := 2 ^ 64

/-- The constant std::string::npos, the largest size_t. -/
def npos : Nat := 2 ^ 64 - 1

/-- The increment `x++` of a size_t, which wraps from npos to zero. -/
def size_inc (x : Nat) : Nat := (x + 1) % SIZE_MODULUS

/-- The difference `a - b` of two size_t values, which wraps below zero. -/
def size_sub (a b : Nat) : Nat := (a + SIZE_MODULUS - b) % SIZE_MODULUS

/-- The largest value of a 32-bit int. -/
def INT_MAX : Nat := 2 ^ 31 - 1

/-- The conversion of a size_t to int, as in `int i = s.size() - 1`: the low
32 bits, read in two's complement. -/
def int_of_size (x : Nat) : Int :=
  if x % 2 ^ 32 < 2 ^ 31 then ((x % 2 ^ 32 : Nat) : Int) else ((x % 2 ^ 32 : Nat) : Int) - 2 ^ 32

/-- The test std::isalnum in the C locale: a digit or an ASCII letter. -/
def isalnum (c : Char) : Bool :=
  (48 ≤ c.toNat && c.toNat ≤ 57) || (65 ≤ c.toNat && c.toNat ≤ 90) ||
    (97 ≤ c.toNat && c.toNat ≤ 122)

/-- The test std::isspace in the C locale: space, \t, \n, \v, \f, \r. -/
def isspace (c : Char) : Bool :=
  c.toNat = 32 || (9 ≤ c.toNat && c.toNat ≤ 13)

/-- The call `s.find(c, pos)`: the first index at or after `pos` that holds
`c`, or npos. -/
def find_char (s : Str) (c : Char) (pos : Nat) : Nat :=
  if (s.drop pos).indexOf c < (s.drop pos).length then pos + (s.drop pos).indexOf c
  else npos

/-- The call `s.find(pat)`: the first index at which `pat` occurs, or npos. -/
def find_str (s pat : Str) : Nat :=
  match (List.range (s.length + 1)).find? (fun i => pat.isPrefixOf (s.drop i)) with
  | some i => i
  | none => npos

/-- The call `s.rfind(pat)`: the last index at which `pat` occurs, or npos. -/
def rfind (s pat : Str) : Nat :=
  match (List.range (s.length + 1)).reverse.find? (fun i => pat.isPrefixOf (s.drop i)) with
  | some i => i
  | none => npos

/-- Whether `pat` occurs in `s` at an index other than 0. -/
def occurs_later (pat s : Str) : Bool :=
  (List.range s.length).any (fun i => pat.isPrefixOf (s.drop (i + 1)))

/-- What can go wrong in the C++ program without it being handled. -/
inductive Fault
  /-- std::out_of_range thrown by substr and caught nowhere. -/
  | out_of_range
  /-- Behaviour on which the C++ standard puts no requirement. -/
  | undefined_behaviour
  deriving DecidableEq, Repr

/-- The call `s.substr(pos, count)`: throws when `pos` is past the end, and
otherwise clips `count` to what is left of the string. -/
def substr (s : Str) (pos count : Nat) : Except Fault Str :=
  if s.length < pos then .error .out_of_range else .ok ((s.drop pos).take count)

/-! ## The client's argument counter -/

/-- The words that `string_stream >> word` extracts one after the other: the
maximal runs of characters that are not whitespace. `cur` is the word that is
being read. -/
def words_from : Str → Str → List Str
  | cur, [] => if cur = [] then [] else [cur]
  | cur, c :: cs =>
    if isspace c then
      (if cur = [] then words_from [] cs else cur :: words_from [] cs)
    else words_from (cur ++ [c]) cs

/-- All words of a line. -/
def words (s : Str) : List Str := words_from [] s

/-- The function client_check_number_of_arguments of client.cpp: the number of
words of the line, not counting the command name. -/
def client_check_number_of_arguments (string : Str) : Int :=
  (-1 : Int) + ((words string).length : Int)

/-! ## The registry -/

/-- The member topic_subscribers: topic name to the list of subscribed sockets. -/
abbrev Registry := List (Str × List Int)

/-- The call `topic_subscribers.find(topic)`: the subscriber list of the
entry with that key (`none` stands for the end iterator). -/
def topic_find : Registry → Str → Option (List Int)
  | [], _ => none
  | (k, v) :: rest, topic => if k = topic then some v else topic_find rest topic

/-- Storing a new subscriber list in the entry of an existing key. -/
def topic_store : Registry → Str → List Int → Registry
  | [], _, _ => []
  | (k, v) :: rest, topic, subs =>
    if k = topic then (k, subs) :: rest else (k, v) :: topic_store rest topic subs

/-- The topic names that have an entry. -/
def topic_names (reg : Registry) : List Str := reg.map Prod.fst

/-- The tail of initialize_server: the two topics the broker is started with. -/
def initialize_server : Registry :=
  [("speed_topic".toList, []), ("battery_topic".toList, [])]

/-- Whether the registry has entries for the start-up topics only. -/
def provisioned (reg : Registry) : Prop :=
  ∀ k ∈ topic_names reg, k = "speed_topic".toList ∨ k = "battery_topic".toList

/-- The container an iterator points into. -/
inductive Container
  /-- The subscriber list stored in topic_subscribers under a topic. -/
  | registry_list (topic : Str)
  /-- A local vector of the running function. -/
  | local_copy
  deriving DecidableEq, Repr

/-- An iterator of a `std::vector<int>`: its container and its position. -/
structure Iterator where
  owner : Container
  index : Nat
  deriving DecidableEq, Repr

/-- The end iterator of a vector. -/
def vec_end (owner : Container) (xs : List Int) : Iterator := ⟨owner, xs.length⟩

/-- The call `std::find(xs.begin(), xs.end(), x)`: the first position that holds
`x`, or the end iterator. -/
def std_find (owner : Container) (xs : List Int) (x : Int) : Iterator :=
  ⟨owner, xs.indexOf x⟩

/-- The call `xs.erase(position)`. The standard requires `position` to be a
dereferenceable iterator of `xs` itself. -/
def vector_erase (self : Container) (xs : List Int) (position : Iterator) :
    Except Fault (List Int) :=
  if position.owner = self ∧ position.index < xs.length then
    .ok (xs.eraseIdx position.index)
  else .error .undefined_behaviour

/-! ## Events -/

/-- What an operation does besides changing the registry. -/
inductive Event
  /-- A `std::lock_guard` on topicMutex is constructed. -/
  | lock
  /-- The lock_guard goes out of scope. -/
  | unlock
  /-- The map topic_subscribers, or the subscriber list of a topic, is read. -/
  | read (topic : Str)
  /-- The subscriber list of a topic is modified. -/
  | write (topic : Str)
  /-- The call `send(subscriber, bytes, size, 0)`. -/
  | send (subscriber : Int) (bytes : Str)
  deriving DecidableEq, Repr

/-- The calls of send among the events, in order: destination and bytes. -/
def sends : List Event → List (Int × Str)
  | [] => []
  | .send fd bytes :: rest => (fd, bytes) :: sends rest
  | _ :: rest => sends rest

/-- Whether every read and write of the registry happens while topicMutex is
held, the mutex is never taken twice, and it is free in the end. `held` tells
whether the mutex is held before the first event. -/
def lock_disciplined : Bool → List Event → Bool
  | held, [] => !held
  | held, .lock :: rest => !held && lock_disciplined true rest
  | held, .unlock :: rest => held && lock_disciplined false rest
  | held, .read _ :: rest => held && lock_disciplined held rest
  | held, .write _ :: rest => held && lock_disciplined held rest
  | held, .send _ _ :: rest => lock_disciplined held rest

/-! ## The registry operations -/

/-- The method TCPServer::subscribe_to_topic (server.cpp, lines 191-214). -/
def subscribe_to_topic (reg : Registry) (client_socket : Int) (topic : Str) :
    Registry × List Event :=
  -- line 194: the look-up comes before the lock_guard of line 201
  match topic_find reg topic with
  | none => (reg, [.read topic])
  | some subs =>
    -- the key exists, so topic_subscribers[topic] is its list and inserts nothing
    if std_find (.registry_list topic) subs client_socket
        ≠ vec_end (.registry_list topic) subs then
      (reg, [.read topic, .lock, .read topic, .unlock])
    else
      (topic_store reg topic (subs ++ [client_socket]),
        [.read topic, .lock, .read topic, .write topic, .unlock])

/-- The method TCPServer::unsubscribe_from_topic (server.cpp, lines 216-240). -/
def unsubscribe_from_topic (reg : Registry) (client_socket : Int) (topic : Str) :
    Except Fault (Registry × List Event) :=
  match topic_find reg topic with
  | none => .ok (reg, [.lock, .read topic, .unlock])
  | some subs =>
    -- line 228: auto list_of_subs = topic_data->second; is a copy of the list
    let list_of_subs := subs
    let element_to_be_removed := std_find .local_copy list_of_subs client_socket
    if element_to_be_removed = vec_end .local_copy list_of_subs then
      .ok (reg, [.lock, .read topic, .unlock])
    else
      -- line 237: topic_subscribers[topic].erase(element_to_be_removed)
      match vector_erase (.registry_list topic) subs element_to_be_removed with
      | .error f => .error f
      | .ok subs1 => .ok (topic_store reg topic subs1, [.lock, .read topic, .write topic, .unlock])

/-- The loop of publish_to_topic over the subscriber list (lines 250-257). -/
def publish_loop (client_socket : Int) (full_message : Str) : List Int → List Event
  | [] => []
  | subscriber :: rest =>
    if subscriber ≠ client_socket then
      .send subscriber full_message :: publish_loop client_socket full_message rest
    else publish_loop client_socket full_message rest

/-- The method TCPServer::publish_to_topic (server.cpp, lines 242-264). -/
def publish_to_topic (reg : Registry) (client_socket : Int) (topic message : Str) :
    Registry × List Event :=
  let full_message := "[Message] Topic: ".toList ++ topic ++ " Data: ".toList ++ message
  match topic_find reg topic with
  | some subs =>
    (reg, [.lock, .read topic] ++ publish_loop client_socket full_message subs ++ [.unlock])
  | none => (reg, [.lock, .read topic, .unlock])

/-! ## The command handler -/

/-- The branch of server_message_received that a line takes. -/
inductive Branch
  | publish
  | subscribe
  | unsubscribe
  | unknown
  deriving DecidableEq, Repr

/-- The conditions of the if-else chain of server_message_received
(lines 136, 154, 176). -/
def command_branch (message_received : Str) : Branch :=
  if rfind message_received "PUBLISH".toList = 0 then .publish
  else if rfind message_received "SUBSCRIBE".toList = 0 then .subscribe
  else if rfind message_received "UNSUBSCRIBE".toList = 0 then .unsubscribe
  else .unknown

/-- The loop of lines 165-168: starting at the last character, the size is
decremented for every character that is not alphanumeric, until an alphanumeric
one or index 0 is reached. `i` is the loop index, which the loop leaves at
once when it is not positive, `size` the running size. -/
def shave (s : Str) : Nat → Nat → Nat
  | 0, size => size
  | i + 1, size => if isalnum (s.getD (i + 1) ' ') then size else shave s i (size - 1)

/-- The PUBLISH branch of server_message_received (lines 138-152): the topic
and the bytes that are handed to publish_to_topic. -/
def publish_arguments (message_received : Str) : Except Fault (Str × Str) := do
  let topic_name_position := size_inc (find_char message_received ' ' 0)
  let topic_name_end := find_char message_received ' ' topic_name_position
  let topic_name ← substr message_received topic_name_position
    (size_sub topic_name_end topic_name_position)
  let message_received_size := message_received.length
  let message_to_be_published ← substr message_received (size_inc topic_name_end)
    (size_sub message_received_size (size_inc topic_name_end))
  if find_str message_received "\r\n".toList = npos then
    pure (topic_name, message_to_be_published ++ "\r\n".toList)
  else
    pure (topic_name, message_to_be_published)

/-- The SUBSCRIBE branch of server_message_received (lines 159-171): the topic
that is handed to subscribe_to_topic. -/
def subscribe_argument (message_received : Str) : Except Fault Str :=
  let topic_name_position := size_inc (find_char message_received ' ' 0)
  -- line 165: int i = message_received.size() - 1
  let i := int_of_size (size_sub message_received.length 1)
  let message_received_size := shave message_received i.toNat message_received.length
  substr message_received topic_name_position
    (size_sub message_received_size topic_name_position)

/-- The UNSUBSCRIBE branch of server_message_received (lines 179-181): the
topic that is handed to unsubscribe_from_topic. -/
def unsubscribe_argument (message_received : Str) : Except Fault Str :=
  let topic_name_position := size_inc (find_char message_received ' ' 0)
  substr message_received topic_name_position
    (size_sub message_received.length topic_name_position)

/-- The method TCPServer::server_message_received (server.cpp, lines 134-189). -/
def server_message_received (reg : Registry) (message_received : Str) (client_socket : Int) :
    Except Fault (Registry × List Event) :=
  match command_branch message_received with
  | .publish =>
    match publish_arguments message_received with
    | .error f => .error f
    | .ok (topic_name, message_to_be_published) =>
      .ok (publish_to_topic reg client_socket topic_name message_to_be_published)
  | .subscribe =>
    match subscribe_argument message_received with
    | .error f => .error f
    | .ok received_topic => .ok (subscribe_to_topic reg client_socket received_topic)
  | .unsubscribe =>
    match unsubscribe_argument message_received with
    | .error f => .error f
    | .ok received_topic => unsubscribe_from_topic reg client_socket received_topic
  | .unknown => .ok (reg, [])

/-! ## The connection handler -/

/-- The size of the receive buffer of handle_connection (line 112). -/
def BUFFER_SIZE : Nat := 1024

/-- The string that `std::string client_message(buffer)` builds: the
characters before the first NUL. -/
def c_string (buffer : Str) : Str := buffer.takeWhile (fun c => c ≠ Char.ofNat 0)

/-- The method TCPServer::handle_connection (server.cpp, lines 110-131).
`received` lists what the successive calls of recv put into the buffer, each
call returning the length of its chunk. The loop is left when recv returns
zero (an empty chunk) or an error (the end of the list), and nothing but
close(client_socket) follows it. -/
def handle_connection (reg : Registry) (client_socket : Int) :
    List Str → Except Fault (Registry × List Event)
  | [] => .ok (reg, [])
  | chunk :: received =>
    if chunk.length = 0 then .ok (reg, [])
    -- line 118: buffer[bytes_read] = 0 needs bytes_read < sizeof(buffer)
    else if BUFFER_SIZE ≤ chunk.length then .error .undefined_behaviour
    else
      match server_message_received reg (c_string chunk) client_socket with
      | .error f => .error f
      | .ok (reg1, events1) =>
        match handle_connection reg1 client_socket received with
        | .error f => .error f
        | .ok (reg2, events2) => .ok (reg2, events1 ++ events2)

/-! ## Lemmas on the registry -/

theorem topic_find_eq_none_iff (reg : Registry) (topic : Str) :
    topic_find reg topic = none ↔ topic ∉ topic_names reg := by
  induction reg with
  | nil => simp [topic_find, topic_names]
  | cons e rest ih =>
    obtain ⟨k, v⟩ := e
    by_cases hk : k = topic
    · simp [topic_find, topic_names, hk]
    · have hk1 : ¬ topic = k := fun h => hk h.symm
      simpa [topic_find, topic_names, hk, hk1] using ih

theorem topic_find_store_same (reg : Registry) (topic : Str) (subs subs1 : List Int)
    (h : topic_find reg topic = some subs) :
    topic_find (topic_store reg topic subs1) topic = some subs1 := by
  induction reg with
  | nil => simp [topic_find] at h
  | cons e rest ih =>
    obtain ⟨k, v⟩ := e
    by_cases hk : k = topic
    · simp [topic_find, topic_store, hk]
    · simp only [topic_find, hk, if_false] at h
      simp [topic_find, topic_store, hk, ih h]

theorem topic_find_store_other (reg : Registry) (topic other : Str) (subs1 : List Int)
    (h : other ≠ topic) :
    topic_find (topic_store reg topic subs1) other = topic_find reg other := by
  induction reg with
  | nil => simp [topic_find, topic_store]
  | cons e rest ih =>
    obtain ⟨k, v⟩ := e
    by_cases hk : k = topic
    · have : ¬ topic = other := fun h1 => h h1.symm
      simp [topic_find, topic_store, hk, this]
    · by_cases hko : k = other
      · subst hko
        simp [topic_find, topic_store, hk]
      · simp [topic_find, topic_store, hk, hko, ih]

theorem topic_names_store (reg : Registry) (topic : Str) (subs1 : List Int) :
    topic_names (topic_store reg topic subs1) = topic_names reg := by
  induction reg with
  | nil => simp [topic_store]
  | cons e rest ih =>
    obtain ⟨k, v⟩ := e
    by_cases hk : k = topic
    · simp [topic_store, topic_names, hk]
    · simp only [topic_names] at ih
      simp [topic_store, topic_names, hk, ih]

theorem topic_store_same (reg : Registry) (topic : Str) (subs : List Int)
    (h : topic_find reg topic = some subs) : topic_store reg topic subs = reg := by
  induction reg with
  | nil => rfl
  | cons e rest ih =>
    obtain ⟨k, v⟩ := e
    by_cases hk : k = topic
    · simp only [topic_find, hk, if_true, Option.some.injEq] at h
      simp [topic_store, hk, h]
    · simp only [topic_find, hk, if_false] at h
      simp [topic_store, hk, ih h]

theorem std_find_eq_end_iff (owner : Container) (xs : List Int) (x : Int) :
    std_find owner xs x = vec_end owner xs ↔ x ∉ xs := by
  simp only [std_find, vec_end, Iterator.mk.injEq, true_and]
  constructor
  · intro h hx
    have := List.indexOf_lt_length.mpr hx
    omega
  · intro h
    exact List.indexOf_eq_length.mpr h

theorem sends_append (xs ys : List Event) : sends (xs ++ ys) = sends xs ++ sends ys := by
  induction xs with
  | nil => rfl
  | cons e rest ih => cases e <;> simp [sends, ih]

theorem sends_publish_loop (client_socket : Int) (full_message : Str) (subs : List Int) :
    sends (publish_loop client_socket full_message subs)
      = (subs.filter (fun s => decide (s ≠ client_socket))).map (fun s => (s, full_message)) := by
  induction subs with
  | nil => rfl
  | cons s rest ih =>
    by_cases hs : s = client_socket
    · simp [publish_loop, hs, ih]
    · simp [publish_loop, hs, ih, sends]

theorem publish_to_topic_registry (reg : Registry) (client_socket : Int)
    (topic message : Str) : (publish_to_topic reg client_socket topic message).1 = reg := by
  unfold publish_to_topic
  split <;> rfl

theorem publish_to_topic_sends_key (reg : Registry) (client_socket : Int) (topic message : Str)
    (h : sends (publish_to_topic reg client_socket topic message).2 ≠ []) :
    topic ∈ topic_names reg := by
  by_contra hkey
  have hfind := (topic_find_eq_none_iff reg topic).mpr hkey
  apply h
  simp [publish_to_topic, hfind, sends]

theorem subscribe_to_topic_sends (reg : Registry) (client_socket : Int) (topic : Str) :
    sends (subscribe_to_topic reg client_socket topic).2 = [] := by
  unfold subscribe_to_topic
  split
  · rfl
  · split <;> rfl

theorem subscribe_to_topic_changed_key (reg : Registry) (client_socket : Int) (topic : Str)
    (h : (subscribe_to_topic reg client_socket topic).1 ≠ reg) : topic ∈ topic_names reg := by
  by_contra hkey
  have hfind := (topic_find_eq_none_iff reg topic).mpr hkey
  apply h
  simp [subscribe_to_topic, hfind]

/-- The events of a publication keep the lock discipline. -/
theorem lock_disciplined_publish_loop (client_socket : Int) (full_message : Str)
    (subs : List Int) (rest : List Event) :
    lock_disciplined true (publish_loop client_socket full_message subs ++ rest)
      = lock_disciplined true rest := by
  induction subs with
  | nil => rfl
  | cons s tail ih =>
    by_cases hs : s = client_socket
    · simp [publish_loop, hs, ih]
    · simp [publish_loop, hs, ih, lock_disciplined]

theorem provisioned_key_facts (k : Str)
    (hk : k = "speed_topic".toList ∨ k = "battery_topic".toList) :
    k ≠ [] ∧ (∀ c ∈ k, isspace c = false) ∧ ¬ "PUBLISH".toList <+: k
      ∧ k ≠ "PUBLISH".toList ∧ k ≠ "SUBSCRIBE".toList
      ∧ k.head? ≠ some 'S' ∧ (∃ c ∈ k, isalnum c = true) := by
  rcases hk with rfl | rfl
  · refine ⟨by decide, by decide, by decide, by decide, by decide, by decide, ?_⟩
    exact ⟨'s', by decide, by decide⟩
  · refine ⟨by decide, by decide, by decide, by decide, by decide, by decide, ?_⟩
    exact ⟨'b', by decide, by decide⟩

/-! ## Lemmas on the words of a line -/

theorem words_from_cur (cur s : Str) (hcur : cur ≠ []) :
    ∃ w tl, words_from cur s = (cur ++ w) :: tl := by
  induction s generalizing cur with
  | nil => exact ⟨[], [], by simp [words_from, hcur]⟩
  | cons c cs ih =>
    by_cases hc : isspace c = true
    · exact ⟨[], words_from [] cs, by simp [words_from, hc, hcur]⟩
    · obtain ⟨w, tl, h⟩ := ih (cur ++ [c]) (by simp)
      exact ⟨c :: w, tl, by simp [words_from, hc, h]⟩

theorem words_from_split (cur a b : Str) (c : Char) (hc : isspace c = true) :
    words_from cur (a ++ c :: b) = words_from cur a ++ words_from [] b := by
  induction a generalizing cur with
  | nil =>
    by_cases hcur : cur = []
    · simp [words_from, hc, hcur]
    · simp [words_from, hc, hcur]
  | cons x xs ih =>
    by_cases hx : isspace x = true
    · by_cases hcur : cur = []
      · simp [words_from, hx, hcur, ih]
      · simp [words_from, hx, hcur, ih]
    · simp [words_from, hx, ih]

theorem words_from_no_space (cur k : Str) (hk : ∀ c ∈ k, isspace c = false) :
    words_from cur k = if cur ++ k = [] then [] else [cur ++ k] := by
  induction k generalizing cur with
  | nil => simp [words_from]
  | cons x xs ih =>
    have hx : isspace x = false := hk x (by simp)
    have hxs : ∀ c ∈ xs, isspace c = false := fun c hc => hk c (by simp [hc])
    simp [words_from, hx, ih (cur ++ [x]) hxs]

theorem words_cons_ne_nil (c : Char) (s : Str) (hc : isspace c = false) :
    words (c :: s) ≠ [] := by
  obtain ⟨w, tl, h⟩ := words_from_cur [c] s (by simp)
  simp [words, words_from, hc, h]

theorem words_head_cons (c : Char) (s : Str) (hc : isspace c = false) :
    ∃ w, (words (c :: s)).head? = some (c :: w) := by
  obtain ⟨w, tl, h⟩ := words_from_cur [c] s (by simp)
  exact ⟨w, by simp [words, words_from, hc, h]⟩

/-- The words of a line in which a topic name without whitespace follows a
space and is followed by the end of the line or by whitespace. -/
theorem words_around (pre k post : Str) (hk : ∀ c ∈ k, isspace c = false) (hne : k ≠ [])
    (hpost : post = [] ∨ ∃ c b, post = c :: b ∧ isspace c = true) :
    words (pre ++ ' ' :: (k ++ post)) = words pre ++ k :: words post := by
  have hsp : isspace ' ' = true := by decide
  unfold words
  rw [words_from_split [] pre (k ++ post) ' ' hsp]
  congr 1
  rcases hpost with rfl | ⟨c, b, rfl, hc⟩
  · simp [words_from_no_space [] k hk, hne, words_from]
  · rw [words_from_split [] k b c hc, words_from_no_space [] k hk]
    simp [hne, words_from, hc]

theorem head_word_of_starts (line kw : Str) (c : Char) (hc : isspace c = false)
    (hp : (c :: kw) <+: line) : ∃ w, (words line).head? = some (c :: w) := by
  obtain ⟨t, rfl⟩ := hp
  exact words_head_cons c (kw ++ t) hc

/-! ## Lemmas on searching a string -/

theorem rfind_eq_zero_iff (s pat : Str) :
    rfind s pat = 0 ↔ (pat.isPrefixOf s = true ∧ occurs_later pat s = false) := by
  unfold rfind occurs_later
  rw [List.range_succ_eq_map, List.reverse_cons, List.find?_append]
  cases h : List.find? (fun i => pat.isPrefixOf (s.drop i))
      (List.map Nat.succ (List.range s.length)).reverse with
  | some i =>
    have hp := List.find?_some h
    have hm := List.mem_of_find?_eq_some h
    simp only [List.mem_reverse, List.mem_map, List.mem_range] at hm
    obtain ⟨j, hj, rfl⟩ := hm
    have hany : (List.range s.length).any (fun i => pat.isPrefixOf (s.drop (i + 1))) = true := by
      rw [List.any_eq_true]
      exact ⟨j, List.mem_range.mpr hj, hp⟩
    rw [hany]
    constructor
    · intro h0
      exact absurd h0 (Nat.succ_ne_zero j)
    · intro h0
      exact absurd h0.2 (by decide)
  | none =>
    have hall : ∀ j, j < s.length → pat.isPrefixOf (s.drop (j + 1)) = false := by
      intro j hj
      have := List.find?_eq_none.mp h (j + 1)
        (by simp only [List.mem_reverse, List.mem_map, List.mem_range]; exact ⟨j, hj, rfl⟩)
      exact Bool.eq_false_iff.mpr this
    have hlater : (List.range s.length).any (fun i => pat.isPrefixOf (s.drop (i + 1))) = false := by
      rw [List.any_eq_false]
      intro j hj
      rw [hall j (List.mem_range.mp hj)]
      decide
    rw [hlater]
    by_cases hp : pat.isPrefixOf s = true
    · have : List.find? (fun i => pat.isPrefixOf (s.drop i)) [0] = some 0 := by
        simp only [List.find?, List.drop_zero, hp]
      rw [this]
      exact ⟨fun _ => ⟨hp, rfl⟩, fun _ => rfl⟩
    · have : List.find? (fun i => pat.isPrefixOf (s.drop i)) [0] = none := by
        simp only [List.find?, List.drop_zero, hp]
      rw [this]
      constructor
      · intro h0
        exact absurd h0 (by decide)
      · intro h0
        exact absurd h0.1 hp

theorem rfind_eq_zero_of_starts (s pat : Str) (hp : pat <+: s)
    (hl : occurs_later pat s = false) : rfind s pat = 0 :=
  (rfind_eq_zero_iff s pat).mpr ⟨List.isPrefixOf_iff_prefix.mpr hp, hl⟩

theorem starts_of_rfind_eq_zero (s pat : Str) (h : rfind s pat = 0) : pat <+: s :=
  List.isPrefixOf_iff_prefix.mp ((rfind_eq_zero_iff s pat).mp h).1

theorem command_branch_starts (line : Str) :
    (command_branch line = Branch.publish → "PUBLISH".toList <+: line)
      ∧ (command_branch line = Branch.subscribe → "SUBSCRIBE".toList <+: line)
      ∧ (command_branch line = Branch.unsubscribe → "UNSUBSCRIBE".toList <+: line) := by
  refine ⟨?_, ?_, ?_⟩
  · intro h
    unfold command_branch at h
    split at h
    · exact starts_of_rfind_eq_zero _ _ (by assumption)
    · split at h
      · cases h
      · split at h <;> cases h
  · intro h
    unfold command_branch at h
    split at h
    · cases h
    · split at h
      · exact starts_of_rfind_eq_zero _ _ (by assumption)
      · split at h <;> cases h
  · intro h
    unfold command_branch at h
    split at h
    · cases h
    · split at h
      · cases h
      · split at h
        · exact starts_of_rfind_eq_zero _ _ (by assumption)
        · cases h

theorem indexOf_split (s : Str) (c : Char) (h : c ∈ s) :
    ∃ pre rest, s = pre ++ c :: rest ∧ c ∉ pre ∧ s.indexOf c = pre.length := by
  induction s with
  | nil => simp at h
  | cons x xs ih =>
    by_cases hx : x = c
    · exact ⟨[], xs, by simp [hx], by simp, by simp [hx]⟩
    · have hmem : c ∈ xs := by
        rcases List.mem_cons.mp h with h1 | h1
        · exact absurd h1.symm hx
        · exact h1
      obtain ⟨pre, rest, hs, hpre, hidx⟩ := ih hmem
      refine ⟨x :: pre, rest, by simp [hs], ?_, ?_⟩
      · simp only [List.mem_cons, not_or]
        exact ⟨fun h1 => hx h1.symm, hpre⟩
      · rw [List.indexOf_cons_ne _ hx, hidx]
        rfl

theorem drop_indexOf_cases (rest : Str) (c : Char) :
    rest.drop (rest.indexOf c) = [] ∨ ∃ b, rest.drop (rest.indexOf c) = c :: b := by
  by_cases h : c ∈ rest
  · right
    obtain ⟨p, q, hs, _, hidx⟩ := indexOf_split rest c h
    refine ⟨q, ?_⟩
    rw [hidx]
    conv => lhs; rw [hs]
    simp
  · left
    rw [List.indexOf_eq_length.mpr h, List.drop_length]

theorem find_char_lt_or_npos (s : Str) (c : Char) (pos : Nat) :
    find_char s c pos = npos ∨ find_char s c pos < s.length := by
  unfold find_char
  split
  · rename_i h
    right
    rw [List.length_drop] at h
    omega
  · left
    rfl

theorem find_char_zero_cases (s : Str) (c : Char) :
    (c ∉ s ∧ find_char s c 0 = npos)
      ∨ ∃ pre rest, s = pre ++ c :: rest ∧ c ∉ pre ∧ find_char s c 0 = pre.length := by
  by_cases h : c ∈ s
  · right
    obtain ⟨pre, rest, hs, hpre, hidx⟩ := indexOf_split s c h
    refine ⟨pre, rest, hs, hpre, ?_⟩
    have hlt : s.indexOf c < s.length := List.indexOf_lt_length.mpr h
    unfold find_char
    rw [List.drop_zero, if_pos hlt, hidx, Nat.zero_add]
  · left
    refine ⟨h, ?_⟩
    have : s.indexOf c = s.length := List.indexOf_eq_length.mpr h
    unfold find_char
    rw [List.drop_zero, this, if_neg (Nat.lt_irrefl _)]

theorem size_inc_npos : size_inc npos = 0 := by decide

theorem size_inc_of_lt (x : Nat) (h : x < npos) : size_inc x = x + 1 := by
  unfold size_inc SIZE_MODULUS
  unfold npos at h
  omega

theorem size_inc_find_char_le (s : Str) (c : Char) (pos : Nat) :
    size_inc (find_char s c pos) ≤ s.length := by
  rcases find_char_lt_or_npos s c pos with h | h
  · rw [h, size_inc_npos]
    exact Nat.zero_le _
  · unfold size_inc
    exact Nat.le_trans (Nat.mod_le _ _) h

theorem substr_ok (s : Str) (pos count : Nat) (h : pos ≤ s.length) :
    substr s pos count = .ok ((s.drop pos).take count) := by
  unfold substr
  rw [if_neg (Nat.not_lt.mpr h)]

theorem find_char_of_split (s : Str) (c : Char) (pos : Nat) (a b : Str)
    (hdrop : s.drop pos = a ++ c :: b) (ha : c ∉ a) : find_char s c pos = pos + a.length := by
  unfold find_char
  rw [hdrop, List.indexOf_append_of_not_mem ha, List.indexOf_cons_self]
  simp

theorem find_str_of_not_mem (s pat : Str) (c : Char) (hc : c ∉ s) :
    find_str s (c :: pat) = npos := by
  unfold find_str
  have hnone : (List.range (s.length + 1)).find? (fun i => (c :: pat).isPrefixOf (s.drop i))
      = none := by
    rw [List.find?_eq_none]
    intro i _ hi
    obtain ⟨t, ht⟩ := List.isPrefixOf_iff_prefix.mp hi
    apply hc
    apply List.mem_of_mem_drop (n := i)
    rw [← ht]
    simp
  rw [hnone]

/-! ## Lemmas on the arguments of a command -/

/-- The PUBLISH branch never throws. -/
theorem publish_arguments_defined (s : Str) : ∃ r, publish_arguments s = .ok r := by
  simp only [publish_arguments]
  rw [substr_ok _ _ _ (size_inc_find_char_le s ' ' 0),
    substr_ok _ _ _ (size_inc_find_char_le s ' ' _)]
  by_cases h : find_str s "\r\n".toList = npos
  · simp only [h]
    exact ⟨_, rfl⟩
  · simp only [h]
    exact ⟨_, rfl⟩

theorem publish_arguments_fst (s : Str) (r : Str × Str) (hr : publish_arguments s = .ok r) :
    r.1 = (s.drop (size_inc (find_char s ' ' 0))).take
      (size_sub (find_char s ' ' (size_inc (find_char s ' ' 0)))
        (size_inc (find_char s ' ' 0))) := by
  simp only [publish_arguments] at hr
  rw [substr_ok _ _ _ (size_inc_find_char_le s ' ' 0),
    substr_ok _ _ _ (size_inc_find_char_le s ' ' _)] at hr
  by_cases h : find_str s "\r\n".toList = npos
  · simp only [h] at hr
    cases hr
    rfl
  · simp only [h] at hr
    cases hr
    rfl

/-- The topic that the PUBLISH branch extracts: the whole line when it holds no
space, and otherwise what stands between the first space and the next one. -/
theorem publish_arguments_topic (s : Str) (hlen : s.length < npos) (r : Str × Str)
    (hr : publish_arguments s = .ok r) :
    (' ' ∉ s ∧ r.1 = s)
      ∨ ∃ pre rest, s = pre ++ ' ' :: rest ∧ ' ' ∉ pre
          ∧ r.1 = rest.take (rest.indexOf ' ') := by
  have hfst := publish_arguments_fst s r hr
  rcases find_char_zero_cases s ' ' with ⟨hno, hf⟩ | ⟨pre, rest, hs, hpre, hf⟩
  · left
    refine ⟨hno, ?_⟩
    rw [hf, size_inc_npos, hf] at hfst
    rw [hfst, List.drop_zero]
    apply List.take_of_length_le
    have : size_sub npos 0 = npos := by decide
    rw [this]
    exact Nat.le_of_lt hlen
  · right
    refine ⟨pre, rest, hs, hpre, ?_⟩
    have hlen1 : s.length = pre.length + 1 + rest.length := by
      rw [hs]
      simp
      omega
    have hinc : size_inc pre.length = pre.length + 1 := size_inc_of_lt _ (by omega)
    have hdrop : s.drop (pre.length + 1) = rest := by
      rw [hs]
      simp
    rw [hf, hinc, hdrop] at hfst
    rw [hfst]
    unfold find_char
    rw [hdrop]
    have hle : rest.indexOf ' ' ≤ rest.length := List.indexOf_le_length
    by_cases hidx : rest.indexOf ' ' < rest.length
    · rw [if_pos hidx]
      have : size_sub (pre.length + 1 + rest.indexOf ' ') (pre.length + 1)
          = rest.indexOf ' ' := by
        unfold size_sub SIZE_MODULUS
        unfold npos at hlen
        omega
      rw [this]
    · rw [if_neg hidx]
      have heq : rest.indexOf ' ' = rest.length := by omega
      rw [heq, List.take_length]
      apply List.take_of_length_le
      unfold size_sub SIZE_MODULUS npos
      unfold npos at hlen
      omega

theorem shave_spec (s : Str) (i : Nat) :
    shave s i (i + 1) ≤ i + 1
      ∧ ∀ j, shave s i (i + 1) ≤ j → j ≤ i → isalnum (s.getD j ' ') = false := by
  induction i with
  | zero =>
    refine ⟨Nat.le_refl _, ?_⟩
    intro j h1 h2
    simp only [shave] at h1
    omega
  | succ i ih =>
    by_cases h : isalnum (s.getD (i + 1) ' ') = true
    · simp only [shave, h, if_true]
      refine ⟨Nat.le_refl _, ?_⟩
      intro j h1 h2
      omega
    · simp only [shave, h, Nat.add_sub_cancel]
      refine ⟨Nat.le_succ_of_le ih.1, ?_⟩
      intro j h1 h2
      by_cases hj : j = i + 1
      · rw [hj]
        exact Bool.eq_false_iff.mpr h
      · exact ih.2 j h1 (by omega)

/-- What the loop of lines 165-168 leaves of the size: everything from that
index on is not alphanumeric. -/
theorem shave_line (s : Str) :
    shave s (s.length - 1) s.length ≤ s.length
      ∧ ∀ c ∈ s.drop (shave s (s.length - 1) s.length), isalnum c = false := by
  cases hs : s.length with
  | zero =>
    have : s = [] := List.eq_nil_of_length_eq_zero hs
    subst this
    exact ⟨Nat.le_refl _, by simp⟩
  | succ n =>
    have hsp := shave_spec s n
    simp only [Nat.add_sub_cancel]
    refine ⟨hsp.1, ?_⟩
    intro c hc
    obtain ⟨t, ht, hget⟩ := List.mem_iff_getElem.mp hc
    rw [List.getElem_drop] at hget
    rw [List.length_drop] at ht
    have hlt : shave s n (n + 1) + t < s.length := by omega
    have := hsp.2 (shave s n (n + 1) + t) (Nat.le_add_right _ _) (by omega)
    rw [List.getD_eq_getElem _ _ hlt, hget] at this
    exact this

theorem shave_start (s : Str) (hlen : s.length ≤ INT_MAX) :
    (int_of_size (size_sub s.length 1)).toNat = s.length - 1 := by
  unfold INT_MAX at hlen
  unfold int_of_size size_sub SIZE_MODULUS
  by_cases h0 : s.length = 0
  · rw [h0]
    decide
  · have h1 : (s.length + 2 ^ 64 - 1) % 2 ^ 64 = s.length - 1 := by omega
    have h2 : (s.length - 1) % 2 ^ 32 = s.length - 1 := by omega
    rw [h1, h2, if_pos (by omega)]
    rfl

/-- The SUBSCRIBE branch never throws. -/
theorem subscribe_argument_defined (s : Str) : ∃ t, subscribe_argument s = .ok t := by
  simp only [subscribe_argument]
  rw [substr_ok _ _ _ (size_inc_find_char_le s ' ' 0)]
  exact ⟨_, rfl⟩

theorem subscribe_argument_eq (s : Str) (hlen : s.length ≤ INT_MAX) :
    subscribe_argument s
      = .ok ((s.drop (size_inc (find_char s ' ' 0))).take
          (size_sub (shave s (s.length - 1) s.length) (size_inc (find_char s ' ' 0)))) := by
  simp only [subscribe_argument]
  rw [substr_ok _ _ _ (size_inc_find_char_le s ' ' 0), shave_start s hlen]

/-- The topic that the SUBSCRIBE branch extracts. With `m` the size that the
shaving loop leaves: the first `m` characters when the line holds no space,
and otherwise what stands between the first space and index `m`, or all that
follows the first space when `m` is not past that space. -/
theorem subscribe_argument_topic (s : Str) (hlen : s.length ≤ INT_MAX) (t : Str)
    (ht : subscribe_argument s = .ok t) :
    (' ' ∉ s ∧ t = s.take (shave s (s.length - 1) s.length))
      ∨ ∃ pre rest, s = pre ++ ' ' :: rest ∧ ' ' ∉ pre
          ∧ ((shave s (s.length - 1) s.length < pre.length + 1 ∧ t = rest)
            ∨ (pre.length + 1 ≤ shave s (s.length - 1) s.length
                ∧ t = rest.take (shave s (s.length - 1) s.length - (pre.length + 1))
                ∧ rest.drop (shave s (s.length - 1) s.length - (pre.length + 1))
                    = s.drop (shave s (s.length - 1) s.length))) := by
  rw [subscribe_argument_eq s hlen] at ht
  cases ht
  have hm := (shave_line s).1
  have hlen : s.length < npos := by
    unfold INT_MAX at hlen
    unfold npos
    omega
  rcases find_char_zero_cases s ' ' with ⟨hno, hf⟩ | ⟨pre, rest, hs, hpre, hf⟩
  · left
    refine ⟨hno, ?_⟩
    rw [hf, size_inc_npos, List.drop_zero]
    have : size_sub (shave s (s.length - 1) s.length) 0 = shave s (s.length - 1) s.length := by
      unfold size_sub SIZE_MODULUS
      unfold npos at hlen
      omega
    rw [this]
  · right
    refine ⟨pre, rest, hs, hpre, ?_⟩
    have hlen1 : s.length = pre.length + 1 + rest.length := by
      rw [hs]
      simp
      omega
    have hinc : size_inc pre.length = pre.length + 1 := size_inc_of_lt _ (by omega)
    have hdrop : s.drop (pre.length + 1) = rest := by
      rw [hs]
      simp
    rw [hf, hinc, hdrop]
    by_cases hcmp : shave s (s.length - 1) s.length < pre.length + 1
    · left
      refine ⟨hcmp, ?_⟩
      apply List.take_of_length_le
      unfold size_sub SIZE_MODULUS
      unfold npos at hlen
      omega
    · right
      refine ⟨by omega, ?_, ?_⟩
      · have : size_sub (shave s (s.length - 1) s.length) (pre.length + 1)
            = shave s (s.length - 1) s.length - (pre.length + 1) := by
          unfold size_sub SIZE_MODULUS
          unfold npos at hlen
          omega
        rw [this]
      · rw [← hdrop, List.drop_drop]
        congr 1
        omega

/-- The arguments of a PUBLISH line of the form of the protocol: a command
without space, a space, a topic without space, a space, and a payload, with
no CR in the line. -/
theorem publish_arguments_well_formed (pre topic payload : Str) (hpre : ' ' ∉ pre)
    (htopic : ' ' ∉ topic) (hcr : '\r' ∉ pre ++ ' ' :: (topic ++ ' ' :: payload))
    (hlen : (pre ++ ' ' :: (topic ++ ' ' :: payload)).length < npos) :
    publish_arguments (pre ++ ' ' :: (topic ++ ' ' :: payload))
      = .ok (topic, payload ++ "\r\n".toList) := by
  have hlen1 : (pre ++ ' ' :: (topic ++ ' ' :: payload)).length
      = pre.length + 1 + topic.length + 1 + payload.length := by
    simp
    omega
  have h0 : find_char (pre ++ ' ' :: (topic ++ ' ' :: payload)) ' ' 0 = pre.length := by
    have := find_char_of_split (pre ++ ' ' :: (topic ++ ' ' :: payload)) ' ' 0 pre
      (topic ++ ' ' :: payload) (by simp) hpre
    simpa using this
  have hinc0 : size_inc pre.length = pre.length + 1 := size_inc_of_lt _ (by omega)
  have hdrop1 : (pre ++ ' ' :: (topic ++ ' ' :: payload)).drop (pre.length + 1)
      = topic ++ ' ' :: payload := by simp
  have h1 : find_char (pre ++ ' ' :: (topic ++ ' ' :: payload)) ' ' (pre.length + 1)
      = pre.length + 1 + topic.length :=
    find_char_of_split _ ' ' _ topic payload hdrop1 htopic
  have hinc1 : size_inc (pre.length + 1 + topic.length) = pre.length + 1 + topic.length + 1 :=
    size_inc_of_lt _ (by omega)
  have hdrop2 : (pre ++ ' ' :: (topic ++ ' ' :: payload)).drop
      (pre.length + 1 + topic.length + 1) = payload := by
    have : pre.length + 1 + topic.length + 1 = (pre ++ ' ' :: (topic ++ [' '])).length := by
      simp
      omega
    rw [this]
    have h2 : pre ++ ' ' :: (topic ++ ' ' :: payload)
        = (pre ++ ' ' :: (topic ++ [' '])) ++ payload := by simp
    rw [h2, List.drop_left]
  have hsub1 : size_sub (pre.length + 1 + topic.length) (pre.length + 1) = topic.length := by
    unfold size_sub SIZE_MODULUS
    unfold npos at hlen
    omega
  have hsub2 : size_sub (pre.length + 1 + topic.length + 1 + payload.length)
      (pre.length + 1 + topic.length + 1) = payload.length := by
    unfold size_sub SIZE_MODULUS
    unfold npos at hlen
    omega
  have hfs : find_str (pre ++ ' ' :: (topic ++ ' ' :: payload)) "\r\n".toList = npos :=
    find_str_of_not_mem _ ['\n'] '\r' hcr
  simp only [publish_arguments]
  rw [h0, hinc0, h1, hinc1, hsub1, hlen1, hsub2, hfs,
    substr_ok _ _ _ (by omega), substr_ok _ _ _ (by omega), hdrop1, hdrop2]
  simp
  rfl

/-! ## The registry over a run -/

theorem provisioned_initialize_server : provisioned initialize_server := by
  unfold provisioned
  decide

/-- The topic names of the registry never change. -/
theorem server_message_received_topic_names (reg : Registry) (line : Str) (client_socket : Int)
    (r : Registry × List Event) (h : server_message_received reg line client_socket = .ok r) :
    topic_names r.1 = topic_names reg := by
  unfold server_message_received at h
  split at h
  · split at h
    · cases h
    · cases h
      rw [publish_to_topic_registry]
  · split at h
    · cases h
    · cases h
      unfold subscribe_to_topic
      split
      · rfl
      · split
        · rfl
        · exact topic_names_store _ _ _
  · split at h
    · cases h
    · unfold unsubscribe_from_topic at h
      split at h
      · cases h
        rfl
      · simp only [] at h
        split at h
        · cases h
          rfl
        · split at h
          · cases h
          · cases h
            exact topic_names_store _ _ _
  · cases h
    rfl

/-- Every registry that a line leaves behind holds the start-up topics only,
when the registry before the line did. -/
theorem server_message_received_provisioned (reg : Registry) (line : Str) (client_socket : Int)
    (r : Registry × List Event) (h : server_message_received reg line client_socket = .ok r)
    (hprov : provisioned reg) : provisioned r.1 := by
  unfold provisioned at hprov ⊢
  rw [server_message_received_topic_names reg line client_socket r h]
  exact hprov

theorem unsubscribe_from_topic_ok (reg : Registry) (client_socket : Int) (topic : Str)
    (r : Registry × List Event) (h : unsubscribe_from_topic reg client_socket topic = .ok r) :
    r.1 = reg := by
  unfold unsubscribe_from_topic at h
  split at h
  · cases h
    rfl
  · simp only [] at h
    split at h
    · cases h
      rfl
    · split at h
      · cases h
      · rename_i heq
        simp [vector_erase, std_find] at heq

/-- No line with a defined result takes a socket out of a subscriber list:
every list is extended at its end or stays as it is. -/
theorem server_message_received_keeps (reg : Registry) (line : Str) (client_socket : Int)
    (r : Registry × List Event) (h : server_message_received reg line client_socket = .ok r)
    (topic : Str) (subs : List Int) (hfind : topic_find reg topic = some subs) :
    ∃ more, topic_find r.1 topic = some (subs ++ more) := by
  unfold server_message_received at h
  split at h
  · split at h
    · cases h
    · cases h
      rw [publish_to_topic_registry]
      exact ⟨[], by simpa using hfind⟩
  · split at h
    · cases h
    · cases h
      rename_i received_topic _
      unfold subscribe_to_topic
      split
      · exact ⟨[], by simpa using hfind⟩
      · rename_i subs1 hfind1
        split
        · exact ⟨[], by simpa using hfind⟩
        · by_cases ht : topic = received_topic
          · subst ht
            rw [hfind] at hfind1
            cases hfind1
            exact ⟨[client_socket], topic_find_store_same reg topic subs _ hfind⟩
          · refine ⟨[], ?_⟩
            rw [topic_find_store_other reg received_topic topic _ ht]
            simpa using hfind
  · split at h
    · cases h
    · rw [unsubscribe_from_topic_ok _ _ _ r h]
      exact ⟨[], by simpa using hfind⟩
  · cases h
    exact ⟨[], by simpa using hfind⟩

/-- No run of the connection handler with a defined result takes a socket out
of a subscriber list, whatever the socket sent and however the run ended:
what was subscribed before the run is subscribed after it. -/
theorem handle_connection_keeps (received : List Str) (reg : Registry) (client_socket : Int)
    (r : Registry × List Event) (h : handle_connection reg client_socket received = .ok r)
    (topic : Str) (subs : List Int) (hfind : topic_find reg topic = some subs) :
    ∃ more, topic_find r.1 topic = some (subs ++ more) := by
  induction received generalizing reg subs r with
  | nil =>
    simp only [handle_connection] at h
    cases h
    exact ⟨[], by simpa using hfind⟩
  | cons chunk rest ih =>
    simp only [handle_connection] at h
    split at h
    · cases h
      exact ⟨[], by simpa using hfind⟩
    · split at h
      · cases h
      · split at h
        · cases h
        · rename_i reg1 events1 hsmr
          split at h
          · cases h
          · rename_i reg2 events2 hrest
            cases h
            obtain ⟨more1, h1⟩ := server_message_received_keeps reg (c_string chunk)
              client_socket (reg1, events1) hsmr topic subs hfind
            obtain ⟨more2, h2⟩ := ih reg1 (reg2, events2) hrest (subs ++ more1) h1
            exact ⟨more1 ++ more2, by simpa using h2⟩

/-! ## Unsubscribing (C1) -/

/-- Unsubscribing a socket that is not in the list of an existing topic
changes nothing and sends nothing. -/
theorem unsubscribe_from_topic_not_member (reg : Registry) (client_socket : Int) (topic : Str)
    (subs : List Int) (hfind : topic_find reg topic = some subs) (hmem : client_socket ∉ subs) :
    unsubscribe_from_topic reg client_socket topic
      = .ok (reg, [.lock, .read topic, .unlock]) := by
  have hend := (std_find_eq_end_iff .local_copy subs client_socket).mpr hmem
  simp [unsubscribe_from_topic, hfind, hend]

/-- Unsubscribing a socket that is in the list of an existing topic hands an
iterator of the local copy to the erase of the registry list, whatever the
registry. -/
theorem unsubscribe_from_topic_member (reg : Registry) (client_socket : Int) (topic : Str)
    (subs : List Int) (hfind : topic_find reg topic = some subs) (hmem : client_socket ∈ subs) :
    unsubscribe_from_topic reg client_socket topic = .error .undefined_behaviour := by
  have hend : ¬ std_find .local_copy subs client_socket = vec_end .local_copy subs := by
    rw [std_find_eq_end_iff]
    exact fun h => h hmem
  have hown : (std_find .local_copy subs client_socket).owner = .local_copy := rfl
  simp [unsubscribe_from_topic, hfind, hend, vector_erase, hown]

/-- C1, at the failing input: socket 4 is the one subscriber of speed_topic and
unsubscribes from it. The claim asks that 4 be gone from the list afterwards
and that the erase act on the list of the registry. The code erases with an
iterator of its local copy of the list, so the call has no defined result. -/
theorem unsubscribe_from_topic_subscribed_undefined :
    topic_find [("speed_topic".toList, [4]), ("battery_topic".toList, [])] "speed_topic".toList
        = some [4]
      ∧ unsubscribe_from_topic [("speed_topic".toList, [4]), ("battery_topic".toList, [])] 4
          "speed_topic".toList = .error .undefined_behaviour
      ∧ server_message_received [("speed_topic".toList, [4]), ("battery_topic".toList, [])]
          "UNSUBSCRIBE speed_topic".toList 4 = .error .undefined_behaviour := by
  decide

/-! ## Subscribing (C2) -/

/-- C2: for a topic of the registry, subscribing a socket that is not yet in
its list gives a registry in which the socket occurs exactly once in that
list, with the same topic names and every other list unchanged, and a second
subscription changes nothing; subscribing a socket that is already in the list
leaves the registry unchanged. No subscription sends anything. -/
theorem subscribe_to_topic_once (reg : Registry) (client_socket : Int) (topic : Str)
    (subs : List Int) (hfind : topic_find reg topic = some subs) :
    (client_socket ∉ subs →
        topic_find (subscribe_to_topic reg client_socket topic).1 topic
            = some (subs ++ [client_socket])
          ∧ (subs ++ [client_socket]).count client_socket = 1
          ∧ (∀ other, other ≠ topic →
              topic_find (subscribe_to_topic reg client_socket topic).1 other
                = topic_find reg other)
          ∧ topic_names (subscribe_to_topic reg client_socket topic).1 = topic_names reg
          ∧ (subscribe_to_topic (subscribe_to_topic reg client_socket topic).1
                client_socket topic).1
              = (subscribe_to_topic reg client_socket topic).1)
      ∧ (client_socket ∈ subs → (subscribe_to_topic reg client_socket topic).1 = reg)
      ∧ sends (subscribe_to_topic reg client_socket topic).2 = [] := by
  refine ⟨?_, ?_, ?_⟩
  · intro hmem
    have hend := (std_find_eq_end_iff (.registry_list topic) subs client_socket).mpr hmem
    have h1 : (subscribe_to_topic reg client_socket topic).1
        = topic_store reg topic (subs ++ [client_socket]) := by
      simp [subscribe_to_topic, hfind, hend]
    have h2 := topic_find_store_same reg topic subs (subs ++ [client_socket]) hfind
    refine ⟨by rw [h1]; exact h2, ?_, ?_, ?_, ?_⟩
    · simp [List.count_append, List.count_eq_zero_of_not_mem hmem]
    · intro other hother
      rw [h1]
      exact topic_find_store_other reg topic other _ hother
    · rw [h1]
      exact topic_names_store reg topic _
    · rw [h1]
      have hend1 : ¬ std_find (.registry_list topic) (subs ++ [client_socket]) client_socket
          = vec_end (.registry_list topic) (subs ++ [client_socket]) := by
        rw [std_find_eq_end_iff]
        simp
      simp [subscribe_to_topic, h2, hend1]
  · intro hmem
    have hend : ¬ std_find (.registry_list topic) subs client_socket
        = vec_end (.registry_list topic) subs := by
      rw [std_find_eq_end_iff]
      exact fun h => h hmem
    simp [subscribe_to_topic, hfind, hend]
  · by_cases hend : std_find (.registry_list topic) subs client_socket
        = vec_end (.registry_list topic) subs
    · simp [subscribe_to_topic, hfind, hend, sends]
    · simp [subscribe_to_topic, hfind, hend, sends]

/-- C2, witness: socket 7 subscribes to speed_topic, of which socket 4 is a
subscriber. -/
theorem subscribe_to_topic_once_witness :
    topic_find (subscribe_to_topic [("speed_topic".toList, [4]), ("battery_topic".toList, [])]
        7 "speed_topic".toList).1 "speed_topic".toList = some [4, 7]
      ∧ (subscribe_to_topic [("speed_topic".toList, [4]), ("battery_topic".toList, [])]
          4 "speed_topic".toList).1
        = [("speed_topic".toList, [4]), ("battery_topic".toList, [])] :=
  ⟨((subscribe_to_topic_once [("speed_topic".toList, [4]), ("battery_topic".toList, [])]
      7 "speed_topic".toList [4] (by decide)).1 (by decide)).1,
   (subscribe_to_topic_once [("speed_topic".toList, [4]), ("battery_topic".toList, [])]
      4 "speed_topic".toList [4] (by decide)).2.1 (by decide)⟩

/-! ## Publishing (C3) -/

/-- C3: for a topic of the registry, publishing sends the full message to the
entries of the topic list that differ from the publishing socket, once per
entry and in list order, sends nothing to the publishing socket, and leaves the
registry unchanged. -/
theorem publish_to_topic_recipients (reg : Registry) (client_socket : Int) (topic message : Str)
    (subs : List Int) (hfind : topic_find reg topic = some subs) :
    sends (publish_to_topic reg client_socket topic message).2
        = (subs.filter (fun s => decide (s ≠ client_socket))).map
            (fun s => (s, "[Message] Topic: ".toList ++ topic ++ " Data: ".toList ++ message))
      ∧ (∀ x ∈ sends (publish_to_topic reg client_socket topic message).2,
          x.1 ≠ client_socket)
      ∧ (publish_to_topic reg client_socket topic message).1 = reg := by
  have hs : sends (publish_to_topic reg client_socket topic message).2
      = (subs.filter (fun s => decide (s ≠ client_socket))).map
          (fun s => (s, "[Message] Topic: ".toList ++ topic ++ " Data: ".toList ++ message)) := by
    simp only [publish_to_topic, hfind, sends_append, sends_publish_loop]
    simp [sends]
  refine ⟨hs, ?_, ?_⟩
  · intro x hx
    rw [hs] at hx
    simp only [List.mem_map, List.mem_filter] at hx
    obtain ⟨s, ⟨_, hne⟩, rfl⟩ := hx
    simpa using hne
  · simp [publish_to_topic, hfind]

/-- C3, witness: socket 4 publishes to speed_topic, to which 4, 5, 4 and 6
are subscribed in this order. -/
theorem publish_to_topic_recipients_witness :
    sends (publish_to_topic [("speed_topic".toList, [4, 5, 4, 6])] 4 "speed_topic".toList
        "x".toList).2
      = [(5, "[Message] Topic: speed_topic Data: x".toList),
         (6, "[Message] Topic: speed_topic Data: x".toList)] :=
  (publish_to_topic_recipients [("speed_topic".toList, [4, 5, 4, 6])] 4 "speed_topic".toList
    "x".toList [4, 5, 4, 6] (by decide)).1.trans (by decide)

/-! ## Teardown (C4) -/

/-- C4, at the failing input: socket 4 connects to the freshly started broker,
sends the line SUBSCRIBE speed_topic and disconnects. When handle_connection
has returned, 4 is still in the subscriber list of speed_topic, and a
publication of socket 5 on that topic is sent to 4. The claim asks that 4 be in
no list and receive nothing. -/
theorem handle_connection_keeps_subscriptions :
    handle_connection initialize_server 4 ["SUBSCRIBE speed_topic".toList]
        = .ok ([("speed_topic".toList, [4]), ("battery_topic".toList, [])],
            [.read "speed_topic".toList, .lock, .read "speed_topic".toList,
              .write "speed_topic".toList, .unlock])
      ∧ topic_find [("speed_topic".toList, [4]), ("battery_topic".toList, [])]
          "speed_topic".toList = some [4]
      ∧ sends (publish_to_topic [("speed_topic".toList, [4]), ("battery_topic".toList, [])] 5
          "speed_topic".toList "x\r\n".toList).2
        = [(4, "[Message] Topic: speed_topic Data: x\r\n".toList)] := by
  decide

/-! ## Unknown topics (C5) -/

/-- C5: for a topic name that is not a key of the registry, subscribing,
unsubscribing and publishing each return the registry they were given and
send nothing. -/
theorem unknown_topic_no_effect (reg : Registry) (client_socket : Int) (topic message : Str)
    (hkey : topic ∉ topic_names reg) :
    (subscribe_to_topic reg client_socket topic).1 = reg
      ∧ sends (subscribe_to_topic reg client_socket topic).2 = []
      ∧ unsubscribe_from_topic reg client_socket topic
          = .ok (reg, [.lock, .read topic, .unlock])
      ∧ sends [Event.lock, Event.read topic, Event.unlock] = []
      ∧ (publish_to_topic reg client_socket topic message).1 = reg
      ∧ sends (publish_to_topic reg client_socket topic message).2 = [] := by
  have hfind := (topic_find_eq_none_iff reg topic).mpr hkey
  simp [subscribe_to_topic, unsubscribe_from_topic, publish_to_topic, hfind, sends]

/-- C5, witness: weather is not a topic of the freshly started broker. -/
theorem unknown_topic_no_effect_witness :
    (subscribe_to_topic initialize_server 4 "weather".toList).1 = initialize_server
      ∧ unsubscribe_from_topic initialize_server 4 "weather".toList
          = .ok (initialize_server, [.lock, .read "weather".toList, .unlock])
      ∧ sends (publish_to_topic initialize_server 4 "weather".toList "hello".toList).2 = [] :=
  have h := unknown_topic_no_effect initialize_server 4 "weather".toList "hello".toList
    (by decide)
  ⟨h.1, h.2.2.1, h.2.2.2.2.2⟩

/-! ## End-to-end delivery (C6) -/

/-- C6, at the failing input: socket 4 subscribes to speed_topic on the freshly
started broker and socket 5 publishes the payload PUBLISH on it. The payload
starts and ends with a character that is not whitespace and holds no CR or LF,
so the claim asks for one send to 4. The line holds the keyword a second time,
`rfind` answers 20 and not 0, the line takes the unknown-command branch and
nothing is sent. -/
theorem publish_payload_with_keyword_not_delivered :
    isspace 'P' = false ∧ isspace 'H' = false
      ∧ '\r' ∉ "PUBLISH".toList ∧ '\n' ∉ "PUBLISH".toList
      ∧ server_message_received initialize_server "SUBSCRIBE speed_topic".toList 4
          = .ok ([("speed_topic".toList, [4]), ("battery_topic".toList, [])],
              [.read "speed_topic".toList, .lock, .read "speed_topic".toList,
                .write "speed_topic".toList, .unlock])
      ∧ rfind "PUBLISH speed_topic PUBLISH".toList "PUBLISH".toList = 20
      ∧ command_branch "PUBLISH speed_topic PUBLISH".toList = .unknown
      ∧ server_message_received [("speed_topic".toList, [4]), ("battery_topic".toList, [])]
          "PUBLISH speed_topic PUBLISH".toList 5
          = .ok ([("speed_topic".toList, [4]), ("battery_topic".toList, [])], []) := by
  refine ⟨by decide, by decide, by decide, by decide, by decide, by decide, by decide, ?_⟩
  decide

/-- The delivery of C6 for every payload that does not repeat the keyword:
on the freshly started broker, after socket A has subscribed to a start-up
topic, a PUBLISH line of another socket B with a payload without CR, in which
PUBLISH occurs at the start only, makes exactly one send, to A, of the
notification with the payload and a CR LF. -/
theorem publish_delivered_without_repeated_keyword (topic payload : Str) (A B : Int)
    (htopic : topic = "speed_topic".toList ∨ topic = "battery_topic".toList)
    (hAB : A ≠ B) (hcr : '\r' ∉ payload)
    (hkw : occurs_later "PUBLISH".toList ("PUBLISH".toList ++ ' ' :: (topic ++ ' ' :: payload))
      = false)
    (hlen : ("PUBLISH".toList ++ ' ' :: (topic ++ ' ' :: payload)).length < npos) :
    server_message_received initialize_server ("SUBSCRIBE ".toList ++ topic) A
        = .ok (topic_store initialize_server topic [A],
            [.read topic, .lock, .read topic, .write topic, .unlock])
      ∧ server_message_received (topic_store initialize_server topic [A])
          ("PUBLISH".toList ++ ' ' :: (topic ++ ' ' :: payload)) B
        = .ok (topic_store initialize_server topic [A],
            [.lock, .read topic,
              .send A ("[Message] Topic: ".toList ++ topic ++ " Data: ".toList
                ++ (payload ++ "\r\n".toList)),
              .unlock]) := by
  have hbranch : command_branch ("PUBLISH".toList ++ ' ' :: (topic ++ ' ' :: payload))
      = Branch.publish := by
    unfold command_branch
    rw [if_pos (rfind_eq_zero_of_starts _ _ (List.prefix_append _ _) hkw)]
  have hnosp : ' ' ∉ topic := by
    rcases htopic with rfl | rfl <;> decide
  have hcrt : '\r' ∉ topic := by
    rcases htopic with rfl | rfl <;> decide
  have hargs := publish_arguments_well_formed "PUBLISH".toList topic payload (by decide) hnosp
    (by
      simp only [List.mem_append, List.mem_cons, not_or]
      exact ⟨by decide, by decide, hcrt, by decide, hcr⟩) hlen
  have hBA : ¬ A = B := hAB
  constructor
  · rcases htopic with rfl | rfl
    · have : server_message_received initialize_server
          ("SUBSCRIBE ".toList ++ "speed_topic".toList) A
          = .ok (subscribe_to_topic initialize_server A "speed_topic".toList) := by
        have hb : command_branch ("SUBSCRIBE ".toList ++ "speed_topic".toList)
            = Branch.subscribe := by decide
        have ha : subscribe_argument ("SUBSCRIBE ".toList ++ "speed_topic".toList)
            = .ok "speed_topic".toList := by decide
        unfold server_message_received
        rw [hb]
        simp only [ha]
      rw [this]
      simp [subscribe_to_topic, initialize_server, topic_find, topic_store, std_find, vec_end]
    · have : server_message_received initialize_server
          ("SUBSCRIBE ".toList ++ "battery_topic".toList) A
          = .ok (subscribe_to_topic initialize_server A "battery_topic".toList) := by
        have hb : command_branch ("SUBSCRIBE ".toList ++ "battery_topic".toList)
            = Branch.subscribe := by decide
        have ha : subscribe_argument ("SUBSCRIBE ".toList ++ "battery_topic".toList)
            = .ok "battery_topic".toList := by decide
        unfold server_message_received
        rw [hb]
        simp only [ha]
      rw [this]
      simp [subscribe_to_topic, initialize_server, topic_find, topic_store, std_find, vec_end]
  · unfold server_message_received
    rw [hbranch]
    simp only [hargs]
    rcases htopic with rfl | rfl
    · simp [publish_to_topic, initialize_server, topic_find, topic_store, publish_loop, hBA]
    · simp [publish_to_topic, initialize_server, topic_find, topic_store, publish_loop, hBA]

/-! ## PUBLISH with too few arguments (C7) -/

/-- C7, as amended: for every line whose leading token is PUBLISH and that has
fewer than two tokens after it, and for every registry, the call has a defined
result and leaves the registry unchanged; the line is not rejected on its
token count, and when the registry holds the start-up topics only, something
is sent only if the line consists of PUBLISH and one argument that names a
topic of the registry. The line is no longer than a std::string can be. -/
theorem publish_too_few_arguments (reg : Registry) (line : Str) (client_socket : Int)
    (hhead : (words line).head? = some "PUBLISH".toList)
    (hargs : client_check_number_of_arguments line < 2)
    (hlen : line.length < npos) :
    ∃ r, server_message_received reg line client_socket = .ok r ∧ r.1 = reg
      ∧ (provisioned reg → sends r.2 ≠ [] →
          ∃ k ∈ topic_names reg, words line = ["PUBLISH".toList, k]) := by
  obtain ⟨hstP, hstS, hstU⟩ := command_branch_starts line
  cases hb : command_branch line with
  | publish =>
    obtain ⟨⟨topic, msg⟩, hpa⟩ := publish_arguments_defined line
    refine ⟨publish_to_topic reg client_socket topic msg, ?_,
      publish_to_topic_registry _ _ _ _, ?_⟩
    · unfold server_message_received
      rw [hb]
      simp only [hpa]
    · intro hprov hsend
      have hkey := publish_to_topic_sends_key reg client_socket topic msg hsend
      obtain ⟨hne, hnosp, hnoP, _, _, _, _⟩ := provisioned_key_facts topic (hprov topic hkey)
      refine ⟨topic, hkey, ?_⟩
      rcases publish_arguments_topic line hlen (topic, msg) hpa with
        ⟨_, htop⟩ | ⟨pre, rest, hs, hpre, htop⟩
      · simp only at htop
        rw [htop] at hnoP
        exact absurd (hstP hb) hnoP
      · simp only at htop
        have hst := hstP hb
        obtain ⟨post, hpostdef⟩ : ∃ post, post = rest.drop (rest.indexOf ' ') := ⟨_, rfl⟩
        have hrest : rest = topic ++ post := by
          rw [hpostdef, htop]
          exact (List.take_append_drop (rest.indexOf ' ') rest).symm
        have hpost : post = [] ∨ ∃ c b, post = c :: b ∧ isspace c = true := by
          rw [hpostdef]
          rcases drop_indexOf_cases rest ' ' with h | ⟨b, h⟩
          · exact Or.inl h
          · exact Or.inr ⟨' ', b, h, by decide⟩
        have hwords : words line = words pre ++ topic :: words post := by
          rw [hs, hrest]
          exact words_around pre topic post hnosp hne hpost
        have hprene : words pre ≠ [] := by
          cases pre with
          | nil =>
            rw [hs] at hst
            obtain ⟨t, ht⟩ := hst
            simp at ht
          | cons p0 pre1 =>
            have hp0 : p0 = 'P' := by
              rw [hs] at hst
              obtain ⟨t, ht⟩ := hst
              simp at ht
              exact ht.1.symm
            rw [hp0]
            exact words_cons_ne_nil 'P' pre1 (by decide)
        have hcount : (words line).length ≤ 2 := by
          unfold client_check_number_of_arguments at hargs
          omega
        rw [hwords] at hcount hhead ⊢
        cases hwp : words pre with
        | nil => exact absurd hwp hprene
        | cons w ws =>
          rw [hwp] at hcount hhead
          simp only [List.cons_append, List.length_cons, List.length_append] at hcount
          have hws : ws = [] := List.eq_nil_of_length_eq_zero (by omega)
          have hpostw : words post = [] := List.eq_nil_of_length_eq_zero (by omega)
          simp only [List.cons_append, List.head?_cons, Option.some.injEq] at hhead
          rw [hws, hpostw, hhead]
          rfl
  | subscribe =>
    obtain ⟨w, hw⟩ := head_word_of_starts line _ 'S' (by decide) (hstS hb)
    rw [hw] at hhead
    exact absurd hhead (by simp)
  | unsubscribe =>
    obtain ⟨w, hw⟩ := head_word_of_starts line _ 'U' (by decide) (hstU hb)
    rw [hw] at hhead
    exact absurd hhead (by simp)
  | unknown =>
    refine ⟨(reg, []), ?_, rfl, ?_⟩
    · unfold server_message_received
      rw [hb]
    · intro _ hsend
      exact absurd rfl hsend

/-- C7, witness: the line PUBLISH speed_topic, sent by socket 5 to a broker
on which socket 4 is subscribed to speed_topic, meets the hypotheses and makes
a send; so the line is PUBLISH and one argument that names a topic. -/
theorem publish_too_few_arguments_witness :
    (words "PUBLISH speed_topic".toList).head? = some "PUBLISH".toList
      ∧ client_check_number_of_arguments "PUBLISH speed_topic".toList < 2
      ∧ ∃ k ∈ topic_names [("speed_topic".toList, [4]), ("battery_topic".toList, [])],
          words "PUBLISH speed_topic".toList = ["PUBLISH".toList, k] := by
  refine ⟨by decide, by decide, ?_⟩
  obtain ⟨r, hr, _, hsend⟩ :=
    publish_too_few_arguments [("speed_topic".toList, [4]), ("battery_topic".toList, [])]
      "PUBLISH speed_topic".toList 5 (by decide) (by decide) (by decide)
  have hrun : server_message_received
      [("speed_topic".toList, [4]), ("battery_topic".toList, [])]
      "PUBLISH speed_topic".toList 5
      = .ok ([("speed_topic".toList, [4]), ("battery_topic".toList, [])],
          [.lock, .read "speed_topic".toList,
            .send 4 "[Message] Topic: speed_topic Data: PUBLISH speed_topic\r\n".toList,
            .unlock]) := by
    decide
  rw [hrun] at hr
  cases hr
  exact hsend (by unfold provisioned; decide) (by decide)

/-- C7, counterexample: the line PUBLISH speed_topic has one token after the
command word, and it is not rejected: the whole line goes to subscriber 4 of
speed_topic as the payload. -/
theorem publish_one_argument_dispatched :
    (words "PUBLISH speed_topic".toList).head? = some "PUBLISH".toList
      ∧ client_check_number_of_arguments "PUBLISH speed_topic".toList = 1
      ∧ server_message_received [("speed_topic".toList, [4]), ("battery_topic".toList, [])]
          "PUBLISH speed_topic".toList 5
          = .ok ([("speed_topic".toList, [4]), ("battery_topic".toList, [])],
              [.lock, .read "speed_topic".toList,
                .send 4 "[Message] Topic: speed_topic Data: PUBLISH speed_topic\r\n".toList,
                .unlock])
      ∧ sends [Event.lock, Event.read "speed_topic".toList,
            Event.send 4 "[Message] Topic: speed_topic Data: PUBLISH speed_topic\r\n".toList,
            Event.unlock]
          = [(4, "[Message] Topic: speed_topic Data: PUBLISH speed_topic\r\n".toList)] := by
  refine ⟨by decide, by decide, ?_, by decide⟩
  decide

/-! ## SUBSCRIBE with a wrong number of arguments (C8) -/

/-- C8, as amended: for every line whose leading token is SUBSCRIBE and whose
number of tokens after it is not one, every registry and every socket, the
call has a defined result and sends nothing; the line is not rejected on its
token count, and when the registry holds the start-up topics only, the
registry changes only if the line is a text without space, a space, the name
of a topic of the registry and then nothing but characters that are not
alphanumeric. Such a line has two or more tokens after the command word, and
the socket is subscribed to that topic. The length of the line fits an int. -/
theorem subscribe_wrong_argument_count (reg : Registry) (line : Str) (client_socket : Int)
    (hhead : (words line).head? = some "SUBSCRIBE".toList)
    (hcount : client_check_number_of_arguments line ≠ 1)
    (hlen : line.length ≤ INT_MAX) :
    ∃ r, server_message_received reg line client_socket = .ok r ∧ sends r.2 = []
      ∧ (provisioned reg → r.1 ≠ reg →
          ∃ pre k junk, line = pre ++ ' ' :: (k ++ junk) ∧ ' ' ∉ pre
            ∧ k ∈ topic_names reg ∧ (∀ c ∈ junk, isalnum c = false)
            ∧ 2 ≤ client_check_number_of_arguments line
            ∧ r.1 = (subscribe_to_topic reg client_socket k).1) := by
  obtain ⟨hstP, hstS, hstU⟩ := command_branch_starts line
  cases hb : command_branch line with
  | publish =>
    obtain ⟨w, hw⟩ := head_word_of_starts line _ 'P' (by decide) (hstP hb)
    rw [hw] at hhead
    exact absurd hhead (by simp)
  | unsubscribe =>
    obtain ⟨w, hw⟩ := head_word_of_starts line _ 'U' (by decide) (hstU hb)
    rw [hw] at hhead
    exact absurd hhead (by simp)
  | unknown =>
    refine ⟨(reg, []), ?_, rfl, ?_⟩
    · unfold server_message_received
      rw [hb]
    · intro _ hne
      exact absurd rfl hne
  | subscribe =>
    have hst := hstS hb
    obtain ⟨topic, htopic⟩ := subscribe_argument_defined line
    refine ⟨subscribe_to_topic reg client_socket topic, ?_,
      subscribe_to_topic_sends _ _ _, ?_⟩
    · unfold server_message_received
      rw [hb]
      simp only [htopic]
    · intro hprov hchanged
      have hkey := subscribe_to_topic_changed_key reg client_socket topic hchanged
      obtain ⟨hne, hnosp, _, _, _, hhd, c0, hc0, hc0al⟩ :=
        provisioned_key_facts topic (hprov topic hkey)
      have hjunk := (shave_line line).2
      rcases subscribe_argument_topic line hlen topic htopic with
        ⟨_, htop⟩ | ⟨pre, rest, hs, hpre, ⟨hlt, htop⟩ | ⟨hle, htop, hdrop⟩⟩
      · exfalso
        obtain ⟨tl, htl⟩ := hst
        cases hm : shave line (line.length - 1) line.length with
        | zero =>
          rw [hm] at htop
          exact hne (by simpa using htop)
        | succ m =>
          rw [hm, ← htl] at htop
          rw [htop] at hhd
          exact hhd (by simp)
      · exfalso
        have hmem : c0 ∈ line.drop (shave line (line.length - 1) line.length) := by
          have hsub : rest = (line.drop (shave line (line.length - 1) line.length)).drop
              (pre.length + 1 - shave line (line.length - 1) line.length) := by
            rw [List.drop_drop]
            have : shave line (line.length - 1) line.length
                + (pre.length + 1 - shave line (line.length - 1) line.length)
                = pre.length + 1 := by omega
            rw [this]
            conv => rhs; rw [hs]
            simp
          rw [htop, hsub] at hc0
          exact List.mem_of_mem_drop hc0
        have := hjunk c0 hmem
        rw [hc0al] at this
        exact absurd this (by decide)
      · obtain ⟨junk, hjdef⟩ : ∃ junk, junk
            = rest.drop (shave line (line.length - 1) line.length - (pre.length + 1)) :=
          ⟨_, rfl⟩
        have hrest : rest = topic ++ junk := by
          rw [hjdef, htop]
          exact (List.take_append_drop _ rest).symm
        have hline : line = pre ++ ' ' :: (topic ++ junk) := by
          rw [← hrest]
          exact hs
        refine ⟨pre, topic, junk, hline, hpre, hkey, ?_, ?_, rfl⟩
        · rw [hjdef, hdrop]
          exact hjunk
        · have hwords : words line = words pre ++ words (topic ++ junk) := by
            rw [hline]
            exact words_from_split [] pre (topic ++ junk) ' ' (by decide)
          have hprene : words pre ≠ [] := by
            cases pre with
            | nil =>
              rw [hs] at hst
              obtain ⟨t, ht⟩ := hst
              simp at ht
            | cons p0 pre1 =>
              have hp0 : p0 = 'S' := by
                rw [hs] at hst
                obtain ⟨t, ht⟩ := hst
                simp at ht
                exact ht.1.symm
              rw [hp0]
              exact words_cons_ne_nil 'S' pre1 (by decide)
          have htopne : words (topic ++ junk) ≠ [] := by
            cases topic with
            | nil => exact absurd rfl hne
            | cons t0 t1 =>
              exact words_cons_ne_nil t0 (t1 ++ junk) (hnosp t0 (by simp))
          have h1 : 1 ≤ (words pre).length := by
            cases hw : words pre with
            | nil => exact absurd hw hprene
            | cons _ _ => simp
          have h2 : 1 ≤ (words (topic ++ junk)).length := by
            cases hw : words (topic ++ junk) with
            | nil => exact absurd hw htopne
            | cons _ _ => simp
          have hlen2 : (words line).length = (words pre).length
              + (words (topic ++ junk)).length := by
            rw [hwords, List.length_append]
          unfold client_check_number_of_arguments at hcount ⊢
          omega

/-- C8, witness: the line SUBSCRIBE speed_topic !, sent by socket 4 to the
freshly started broker, meets the hypotheses and changes the registry; so it
is a text without space, a space, a topic name and characters that are not
alphanumeric, and it has two tokens or more after SUBSCRIBE. -/
theorem subscribe_wrong_argument_count_witness :
    (words "SUBSCRIBE speed_topic !".toList).head? = some "SUBSCRIBE".toList
      ∧ client_check_number_of_arguments "SUBSCRIBE speed_topic !".toList ≠ 1
      ∧ ∃ pre k junk, "SUBSCRIBE speed_topic !".toList = pre ++ ' ' :: (k ++ junk)
          ∧ ' ' ∉ pre ∧ k ∈ topic_names initialize_server
          ∧ (∀ c ∈ junk, isalnum c = false)
          ∧ 2 ≤ client_check_number_of_arguments "SUBSCRIBE speed_topic !".toList := by
  refine ⟨by decide, by decide, ?_⟩
  obtain ⟨r, hr, _, hchange⟩ :=
    subscribe_wrong_argument_count initialize_server "SUBSCRIBE speed_topic !".toList 4
      (by decide) (by decide) (by decide)
  have hrun : server_message_received initialize_server "SUBSCRIBE speed_topic !".toList 4
      = .ok ([("speed_topic".toList, [4]), ("battery_topic".toList, [])],
          [.read "speed_topic".toList, .lock, .read "speed_topic".toList,
            .write "speed_topic".toList, .unlock]) := by
    decide
  rw [hrun] at hr
  cases hr
  obtain ⟨pre, k, junk, h1, h2, h3, h4, h5, _⟩ :=
    hchange (by unfold provisioned; decide) (by decide)
  exact ⟨pre, k, junk, h1, h2, h3, h4, h5⟩

/-- C8, counterexample: the line SUBSCRIBE speed_topic ! has two tokens after
the command word, and it is not rejected: the loop of lines 165-168 drops the
space and the exclamation mark, and socket 4 is added to speed_topic. -/
theorem subscribe_two_arguments_accepted :
    (words "SUBSCRIBE speed_topic !".toList).head? = some "SUBSCRIBE".toList
      ∧ client_check_number_of_arguments "SUBSCRIBE speed_topic !".toList = 2
      ∧ server_message_received initialize_server "SUBSCRIBE speed_topic !".toList 4
          = .ok ([("speed_topic".toList, [4]), ("battery_topic".toList, [])],
              [.read "speed_topic".toList, .lock, .read "speed_topic".toList,
                .write "speed_topic".toList, .unlock])
      ∧ initialize_server ≠ [("speed_topic".toList, [4]), ("battery_topic".toList, [])] := by
  refine ⟨by decide, by decide, ?_, by decide⟩
  decide

/-! ## The branch a line takes (C9) -/

/-- C9, as amended: the branch is chosen by the keyword the line starts with.
For every line in which no keyword that starts the line occurs a second time,
the PUBLISH branch is taken exactly when the line starts with PUBLISH, else the
SUBSCRIBE branch exactly when it starts with SUBSCRIBE, else the UNSUBSCRIBE
branch exactly when it starts with UNSUBSCRIBE, whatever follows the keyword;
and every line that starts with none of the three keywords takes the
unknown-command branch, sends nothing and leaves the registry unchanged. -/
theorem command_branch_by_leading_keyword (line : Str)
    (hslip : ∀ kw ∈ ["PUBLISH".toList, "SUBSCRIBE".toList, "UNSUBSCRIBE".toList],
      kw <+: line → occurs_later kw line = false) :
    command_branch line
        = (if "PUBLISH".toList <+: line then Branch.publish
           else if "SUBSCRIBE".toList <+: line then Branch.subscribe
           else if "UNSUBSCRIBE".toList <+: line then Branch.unsubscribe
           else Branch.unknown)
      ∧ (¬ "PUBLISH".toList <+: line → ¬ "SUBSCRIBE".toList <+: line →
          ¬ "UNSUBSCRIBE".toList <+: line →
          command_branch line = Branch.unknown
            ∧ ∀ (reg : Registry) (client_socket : Int),
                server_message_received reg line client_socket = .ok (reg, [])) := by
  have hP : rfind line "PUBLISH".toList = 0 ↔ "PUBLISH".toList <+: line :=
    ⟨starts_of_rfind_eq_zero _ _, fun h =>
      rfind_eq_zero_of_starts _ _ h (hslip _ (by simp) h)⟩
  have hS : rfind line "SUBSCRIBE".toList = 0 ↔ "SUBSCRIBE".toList <+: line :=
    ⟨starts_of_rfind_eq_zero _ _, fun h =>
      rfind_eq_zero_of_starts _ _ h (hslip _ (by simp) h)⟩
  have hU : rfind line "UNSUBSCRIBE".toList = 0 ↔ "UNSUBSCRIBE".toList <+: line :=
    ⟨starts_of_rfind_eq_zero _ _, fun h =>
      rfind_eq_zero_of_starts _ _ h (hslip _ (by simp) h)⟩
  have hbranch : command_branch line
        = (if "PUBLISH".toList <+: line then Branch.publish
           else if "SUBSCRIBE".toList <+: line then Branch.subscribe
           else if "UNSUBSCRIBE".toList <+: line then Branch.unsubscribe
           else Branch.unknown) := by
    unfold command_branch
    simp only [hP, hS, hU]
  refine ⟨hbranch, ?_⟩
  intro h1 h2 h3
  have hb : command_branch line = Branch.unknown := by
    rw [hbranch]
    simp only [h1, h2, h3, if_false]
  refine ⟨hb, ?_⟩
  intro reg client_socket
  unfold server_message_received
  rw [hb]

/-- C9, witness: the line PUBLISHER speed_topic x starts with PUBLISH, which
does not occur in it a second time, and takes the PUBLISH branch; the line
HELP starts with no keyword and has no effect. -/
theorem command_branch_by_leading_keyword_witness :
    command_branch "PUBLISHER speed_topic x".toList = Branch.publish
      ∧ server_message_received initialize_server "HELP".toList 4
          = .ok (initialize_server, []) :=
  ⟨(command_branch_by_leading_keyword "PUBLISHER speed_topic x".toList (by decide)).1.trans
      (by decide),
   ((command_branch_by_leading_keyword "HELP".toList (by decide)).2
      (by decide) (by decide) (by decide)).2 initialize_server 4⟩

/-- C9, counterexample: the leading token of PUBLISHER speed_topic x is not
PUBLISH, yet the line takes the PUBLISH branch and is sent to subscriber 4;
the leading token of SUBSCRIBED speed_topic is not SUBSCRIBE, yet the line
takes the SUBSCRIBE branch and adds socket 4 to speed_topic. -/
theorem command_branch_longer_token :
    (words "PUBLISHER speed_topic x".toList).head? = some "PUBLISHER".toList
      ∧ "PUBLISHER".toList ≠ "PUBLISH".toList
      ∧ command_branch "PUBLISHER speed_topic x".toList = Branch.publish
      ∧ server_message_received [("speed_topic".toList, [4]), ("battery_topic".toList, [])]
          "PUBLISHER speed_topic x".toList 5
          = .ok ([("speed_topic".toList, [4]), ("battery_topic".toList, [])],
              [.lock, .read "speed_topic".toList,
                .send 4 "[Message] Topic: speed_topic Data: x\r\n".toList, .unlock])
      ∧ (words "SUBSCRIBED speed_topic".toList).head? = some "SUBSCRIBED".toList
      ∧ "SUBSCRIBED".toList ≠ "SUBSCRIBE".toList
      ∧ command_branch "SUBSCRIBED speed_topic".toList = Branch.subscribe
      ∧ server_message_received initialize_server "SUBSCRIBED speed_topic".toList 4
          = .ok ([("speed_topic".toList, [4]), ("battery_topic".toList, [])],
              [.read "speed_topic".toList, .lock, .read "speed_topic".toList,
                .write "speed_topic".toList, .unlock]) := by
  refine ⟨by decide, by decide, by decide, by decide, by decide, by decide, by decide, ?_⟩
  decide

/-! ## The mutex (C10) -/

/-- C10: whatever the registry, the socket and the topic, subscribe_to_topic
reads the map before it takes topicMutex, so its events do not keep the lock
discipline; those of publish_to_topic do, and so do those of
unsubscribe_from_topic whenever it has a defined result. The claim asks that
all three hold the mutex from the look-up on. -/
theorem subscribe_to_topic_reads_unlocked (reg : Registry) (client_socket : Int)
    (topic message : Str) :
    lock_disciplined false (subscribe_to_topic reg client_socket topic).2 = false
      ∧ (subscribe_to_topic reg client_socket topic).2.head? = some (.read topic)
      ∧ lock_disciplined false (publish_to_topic reg client_socket topic message).2 = true
      ∧ (∀ r, unsubscribe_from_topic reg client_socket topic = .ok r →
          lock_disciplined false r.2 = true) := by
  refine ⟨?_, ?_, ?_, ?_⟩
  · unfold subscribe_to_topic
    split
    · rfl
    · split <;> rfl
  · unfold subscribe_to_topic
    split
    · rfl
    · split <;> rfl
  · unfold publish_to_topic
    split
    · simp [lock_disciplined, lock_disciplined_publish_loop]
    · rfl
  · intro r hr
    unfold unsubscribe_from_topic at hr
    split at hr
    · cases hr
      rfl
    · simp only [] at hr
      split at hr
      · cases hr
        rfl
      · split at hr
        · cases hr
        · cases hr
          rfl

/-- C10, witness: unsubscribing socket 5, which is not subscribed, keeps the
lock discipline, while subscribing it does not. -/
theorem subscribe_to_topic_reads_unlocked_witness :
    lock_disciplined false (subscribe_to_topic initialize_server 5 "speed_topic".toList).2
        = false
      ∧ lock_disciplined false [Event.lock, Event.read "speed_topic".toList, Event.unlock]
        = true :=
  ⟨(subscribe_to_topic_reads_unlocked initialize_server 5 "speed_topic".toList []).1,
   (subscribe_to_topic_reads_unlocked initialize_server 5 "speed_topic".toList []).2.2.2
      (initialize_server, [.lock, .read "speed_topic".toList, .unlock]) (by decide)⟩

/-! ## The receive buffer (C11) -/

/-- A chunk that fills the receive buffer makes the write of line 118 leave
the buffer, whatever the registry, the socket and what is received later. -/
theorem handle_connection_full_buffer (reg : Registry) (client_socket : Int) (chunk : Str)
    (received : List Str) (hfull : chunk.length = BUFFER_SIZE) :
    handle_connection reg client_socket (chunk :: received) = .error .undefined_behaviour := by
  have h0 : ¬ chunk.length = 0 := by
    rw [hfull]
    decide
  have h1 : BUFFER_SIZE ≤ chunk.length := Nat.le_of_eq hfull.symm
  unfold handle_connection
  rw [if_neg h0, if_pos h1]

/-- A chunk of 1 to 1023 characters is terminated inside the buffer: the
handler goes on to the command handler with the characters before the first
NUL, and a fault can only come from there or from a later chunk. -/
theorem handle_connection_short_chunk (reg : Registry) (client_socket : Int) (chunk : Str)
    (received : List Str) (hpos : 1 ≤ chunk.length) (hlt : chunk.length < BUFFER_SIZE) :
    handle_connection reg client_socket (chunk :: received)
      = match server_message_received reg (c_string chunk) client_socket with
        | .error f => .error f
        | .ok (reg1, events1) =>
          match handle_connection reg1 client_socket received with
          | .error f => .error f
          | .ok (reg2, events2) => .ok (reg2, events1 ++ events2) := by
  have h0 : ¬ chunk.length = 0 := by omega
  have h1 : ¬ BUFFER_SIZE ≤ chunk.length := by omega
  simp only [handle_connection, h0, h1, if_false]

/-- C11, at the failing input: a peer sends 1024 characters at once, so recv,
asked for sizeof(buffer) = 1024 characters, returns 1024. That is a positive
result within the requested length, and the index 1024 of the terminator is
not below the 1024 elements of the buffer: the write of line 118 is out of
bounds. The claim asks that the index be inside the buffer for every result
from 1 to 1024. -/
theorem handle_connection_terminator_out_of_bounds :
    (List.replicate 1024 'A').length = 1024
      ∧ 1 ≤ (List.replicate 1024 'A').length
      ∧ (List.replicate 1024 'A').length ≤ BUFFER_SIZE
      ∧ ¬ (List.replicate 1024 'A').length < BUFFER_SIZE
      ∧ handle_connection initialize_server 4 [List.replicate 1024 'A']
          = .error .undefined_behaviour := by
  have hlen : (List.replicate 1024 'A').length = 1024 := List.length_replicate 1024 'A'
  refine ⟨hlen, ?_, ?_, ?_, ?_⟩
  · rw [hlen]
    decide
  · rw [hlen]
    decide
  · rw [hlen]
    decide
  · exact handle_connection_full_buffer initialize_server 4 (List.replicate 1024 'A') []
      (by rw [hlen]; rfl)

end TCPServer
